import Mathlib

set_option maxHeartbeats 1000000

namespace SvinstPort

/- Shallow embedding of svinst_port (src/main.rs). Strings emitted by the program
are modelled as Lean `String`s; raw source bytes handled by the escaper and the
error locator are modelled as `List Nat` (one entry per byte). -/

/-- Escape table of `escape_str` (src/main.rs lines 448-485): for a byte that the
match escapes, the replacement bytes; `none` corresponds to the `continue` arm
(the byte passes through inside a slice). Arm order follows the source. -/
def escTable (b : Nat) : Option (List Nat) :=
  if b = 34 then some [92, 34]
  else if b = 92 then some [92, 92]
  else if b = 0 then some [92, 117, 48, 48, 48, 48]
  else if b = 1 then some [92, 117, 48, 48, 48, 49]
  else if b = 2 then some [92, 117, 48, 48, 48, 50]
  else if b = 3 then some [92, 117, 48, 48, 48, 51]
  else if b = 4 then some [92, 117, 48, 48, 48, 52]
  else if b = 5 then some [92, 117, 48, 48, 48, 53]
  else if b = 6 then some [92, 117, 48, 48, 48, 54]
  else if b = 7 then some [92, 117, 48, 48, 48, 55]
  else if b = 8 then some [92, 98]
  else if b = 9 then some [92, 116]
  else if b = 10 then some [92, 110]
  else if b = 11 then some [92, 117, 48, 48, 48, 98]
  else if b = 12 then some [92, 102]
  else if b = 13 then some [92, 114]
  else if b = 14 then some [92, 117, 48, 48, 48, 101]
  else if b = 15 then some [92, 117, 48, 48, 48, 102]
  else if b = 16 then some [92, 117, 48, 48, 49, 48]
  else if b = 17 then some [92, 117, 48, 48, 49, 49]
  else if b = 18 then some [92, 117, 48, 48, 49, 50]
  else if b = 19 then some [92, 117, 48, 48, 49, 51]
  else if b = 20 then some [92, 117, 48, 48, 49, 52]
  else if b = 21 then some [92, 117, 48, 48, 49, 53]
  else if b = 22 then some [92, 117, 48, 48, 49, 54]
  else if b = 23 then some [92, 117, 48, 48, 49, 55]
  else if b = 24 then some [92, 117, 48, 48, 49, 56]
  else if b = 25 then some [92, 117, 48, 48, 49, 57]
  else if b = 26 then some [92, 117, 48, 48, 49, 97]
  else if b = 27 then some [92, 117, 48, 48, 49, 98]
  else if b = 28 then some [92, 117, 48, 48, 49, 99]
  else if b = 29 then some [92, 117, 48, 48, 49, 100]
  else if b = 30 then some [92, 117, 48, 48, 49, 101]
  else if b = 31 then some [92, 117, 48, 48, 49, 102]
  else if b = 127 then some [92, 117, 48, 48, 55, 102]
  else none

/-- Net contribution of one input byte to the escaped body: the replacement for
escaped bytes, the byte itself otherwise. -/
def escByte (b : Nat) : List Nat := (escTable b).getD [b]

/-- Loop body of `escape_str` (src/main.rs lines 447-494): iterates the bytes with
their indices (`v.bytes().enumerate()`), keeping the start of the pending
unescaped slice and the output built so far; the trailing `if start != v.len()`
push (lines 496-498) is the base case. -/
def escape_loop (v : List Nat) : List Nat → Nat → Nat → List Nat → List Nat
  | [], _, start, wr => if start ≠ v.length then wr ++ v.drop start else wr
  | byte :: rest, i, start, wr =>
    match escTable byte with
    | none => escape_loop v rest (i + 1) start wr
    | some esc =>
      let wr1 := if start < i then wr ++ (v.drop start).take (i - start) else wr
      escape_loop v rest (i + 1) (i + 1) (wr1 ++ esc)

/-- Byte-level model of `escape_str` (src/main.rs lines 440-503): opening quote,
escaped body, closing quote (34 is the double-quote byte). -/
def escape_str (v : List Nat) : List Nat := escape_loop v v 0 0 [34] ++ [34]

/-- String-level rendering of `escape_str`, used where the program interpolates
`escape_str(id)` into an output line. -/
def escapeS (s : String) : String :=
  String.mk ((escape_str (s.data.map Char.toNat)).map Char.ofNat)

/-- Value of one hexadecimal digit byte, as a standard quoted-scalar unescaper
reads it; `none` for a byte that is not a hex digit. -/
def unescHex (c : Nat) : Option Nat :=
  if 48 ≤ c ∧ c ≤ 57 then some (c - 48)
  else if 97 ≤ c ∧ c ≤ 102 then some (c - 87)
  else if 65 ≤ c ∧ c ≤ 70 then some (c - 55)
  else none

/-- Modelled from the spec: the body of a standard quoted-scalar unescape
(the inverse direction of the escaper contract in the spec). Reads bytes up to
an unescaped closing quote, decoding backslash escapes; `\uXXXX` is accepted for
codepoints below 0x80 (the only ones the escaper emits). Fails on a stray quote
or backslash, or a truncated input. -/
def unescBody : List Nat → Option (List Nat)
  | [] => none
  | b :: rest =>
    if b = 34 then (if rest = [] then some [] else none)
    else if b = 92 then
      match rest with
      | [] => none
      | c :: t =>
        if c = 34 then (unescBody t).map (fun u => 34 :: u)
        else if c = 92 then (unescBody t).map (fun u => 92 :: u)
        else if c = 110 then (unescBody t).map (fun u => 10 :: u)
        else if c = 116 then (unescBody t).map (fun u => 9 :: u)
        else if c = 114 then (unescBody t).map (fun u => 13 :: u)
        else if c = 98 then (unescBody t).map (fun u => 8 :: u)
        else if c = 102 then (unescBody t).map (fun u => 12 :: u)
        else if c = 117 then
          match t with
          | h1 :: h2 :: h3 :: h4 :: t2 =>
            match unescHex h1, unescHex h2, unescHex h3, unescHex h4 with
            | some d1, some d2, some d3, some d4 =>
              let val := d1 * 4096 + d2 * 256 + d3 * 16 + d4
              if val < 128 then (unescBody t2).map (fun u => val :: u) else none
            | _, _, _, _ => none
          | _ => none
        else none
    else (unescBody rest).map (fun u => b :: u)

/-- Modelled from the spec: a standard quoted-scalar unescape — expects an
opening double quote then a body terminated by the closing quote. -/
def unescape (l : List Nat) : Option (List Nat) :=
  match l with
  | 34 :: rest => unescBody rest
  | _ => none

/-- Model of Rust `str::parse::<i32>()` as used at src/main.rs line 287: an
optional sign followed by at least one decimal digit, rejecting any other
character and any value outside the i32 range. -/
def parseI32core (sign : Int) (ds : List Char) : Option Int :=
  if ds = [] then none
  else if ds.all Char.isDigit then
    let n : Nat := ds.foldl (fun a c => a * 10 + (c.toNat - 48)) 0
    let v : Int := sign * (n : Int)
    if -2147483648 ≤ v ∧ v ≤ 2147483647 then some v else none
  else none

/-- Model of Rust `str::parse::<i32>()` (sign dispatch). -/
def parseI32 (s : String) : Option Int :=
  match s.data with
  | '+' :: rest => parseI32core 1 rest
  | '-' :: rest => parseI32core (-1) rest
  | l => parseI32core 1 l

/-- Traversal state of the definition analyzer (struct `DefsState`,
src/main.rs lines 209-214). -/
structure DefsState where
  first_port : Bool
  first_inst : Bool
  is_input : Bool
  port_width : Int
deriving DecidableEq, Repr

/-- Outcome of the sub-node lookup chains of `process_port_def`
(src/main.rs lines 261-295): each field records whether the corresponding
`unwrap_node!`/`get_*`/`get_str` chain on the port-declaration node succeeded,
and with which source text. `portIds` lists, in traversal order, the
`PortIdentifier` descendants with the result of their identifier lookup. -/
structure PortDeclData where
  dirKeyword : Option String
  hasInputDecl : Bool
  hasOutputDecl : Bool
  rangeText : Option String
  portIds : List (Option String)
deriving DecidableEq, Repr

/-- A node dispatched by the walker of `analyze_defs` (src/main.rs lines
328-349), abstracted by the outcomes of the identifier lookups the handlers
perform on it. Both module-declaration forms (non-ANSI and ANSI) map to
`moduleDef`, both port-declaration forms to `portDecl`; `other` stands for
every node kind the match ignores. -/
inductive DefsNode where
  | moduleDef (id : Option String)
  | moduleInst (modId : Option String) (instId : Option String)
  | portDecl (d : PortDeclData)
  | other
deriving DecidableEq, Repr

/-- Result of one handler or of a traversal segment: the updated state, the
lines printed to standard output, and `some msg` when the handler panicked
(the `unwrap()` at src/main.rs line 287). -/
structure StepOut where
  state : DefsState
  out : List String
  panic : Option String
deriving DecidableEq, Repr

/-- Module-definition handler (`process_module_def`, src/main.rs lines
217-236): an unresolved identifier is a silent no-op; otherwise flush the
previous module's empty-list markers, print the module name, and mark both
lists as not yet started. -/
def process_module_def (s : DefsState) (id : Option String) :
    DefsState × List String :=
  match id with
  | none => (s, [])
  | some id =>
    let out1 := if s.first_port then ["        ports: []"] else []
    let out2 := if s.first_inst then ["        insts: []"] else []
    (⟨true, true, s.is_input, s.port_width⟩,
     out1 ++ out2 ++ ["      - mod_name: " ++ escapeS id])

/-- Module-instantiation handler (`process_module_inst`, src/main.rs lines
239-258). The module identifier is resolved first; only after the header and
the `mod_name` line are printed is the instance identifier resolved, so a
missing instance identifier leaves the `mod_name` line without an `inst_name`
line. -/
def process_module_inst (s : DefsState) (modId instId : Option String) :
    DefsState × List String :=
  match modId with
  | none => (s, [])
  | some m =>
    let hdr := if s.first_inst then ["        insts:"] else []
    let s1 := if s.first_inst then { s with first_inst := false } else s
    let out1 := hdr ++ ["          - mod_name: " ++ escapeS m]
    match instId with
    | none => (s1, out1)
    | some i => (s1, out1 ++ ["            inst_name: " ++ escapeS i])

/-- Port-identifier handler (`process_port_ident`, src/main.rs lines 298-316):
prints the `ports:` header once, then the port entry using the current
direction and width. -/
def process_port_ident (s : DefsState) (id : Option String) :
    DefsState × List String :=
  match id with
  | none => (s, [])
  | some id =>
    let hdr := if s.first_port then ["        ports:"] else []
    let s1 := if s.first_port then { s with first_port := false } else s
    (s1, hdr ++ ["          - port_name: " ++ escapeS id,
                 if s.is_input then "            port_dir: \"input\""
                 else "            port_dir: \"output\"",
                 "            port_width: " ++ toString s.port_width])

/-- The `for x in node` loop of `process_port_def` (src/main.rs lines
289-294): processes each `PortIdentifier` descendant in order. -/
def process_port_idents (s : DefsState) : List (Option String) →
    DefsState × List String
  | [] => (s, [])
  | id :: rest =>
    let r1 := process_port_ident s id
    let r2 := process_port_idents r1.1 rest
    (r2.1, r1.2 ++ r2.2)

/-- The three direction checks of `process_port_def` (src/main.rs lines
266-282), applied independently and in order — direction keyword, input
declaration form, output declaration form — each overriding state set by the
previous ones on the same node. -/
def port_dir_checks (s0 : DefsState) (d : PortDeclData) : DefsState :=
  let s1 := match d.dirKeyword with
    | some k => { s0 with is_input := k == "input", port_width := 1 }
    | none => s0
  let s2 := if d.hasInputDecl then { s1 with is_input := true, port_width := 1 } else s1
  if d.hasOutputDecl then { s2 with is_input := false, port_width := 1 } else s2

/-- Remainder of `process_port_def` (src/main.rs lines 283-295): the
constant-range check — whose bound goes through `parse::<i32>().unwrap()`,
so an unparseable bound panics — followed by the port-identifier loop. -/
def process_port_def (s0 : DefsState) (d : PortDeclData) : StepOut :=
  let s3 := port_dir_checks s0 d
  match d.rangeText with
  | none =>
    let r := process_port_idents s3 d.portIds
    ⟨r.1, r.2, none⟩
  | some t =>
    match parseI32 t with
    | none => ⟨s3, [], some ("i32 parse unwrap failed on " ++ t)⟩
    | some v =>
      let r := process_port_idents { s3 with port_width := v + 1 } d.portIds
      ⟨r.1, r.2, none⟩

/-- One iteration of the walker match of `analyze_defs` (src/main.rs lines
328-349). -/
def analyze_step (s : DefsState) : DefsNode → StepOut
  | .moduleDef id =>
    let r := process_module_def s id
    ⟨r.1, r.2, none⟩
  | .moduleInst m i =>
    let r := process_module_inst s m i
    ⟨r.1, r.2, none⟩
  | .portDecl d => process_port_def s d
  | .other => ⟨s, [], none⟩

/-- The walker loop of `analyze_defs` over the node stream; a panic aborts
the traversal, keeping the lines already printed. -/
def analyze_nodes (s : DefsState) : List DefsNode → StepOut
  | [] => ⟨s, [], none⟩
  | n :: rest =>
    let r := analyze_step s n
    match r.panic with
    | some m => ⟨r.state, r.out, some m⟩
    | none =>
      let r2 := analyze_nodes r.state rest
      ⟨r2.state, r.out ++ r2.out, r2.panic⟩

/-- The trailing empty-list flush of `analyze_defs` (src/main.rs lines
350-355). -/
def end_flush (s : DefsState) : List String :=
  (if s.first_port then ["        ports: []"] else []) ++
  (if s.first_inst then ["        insts: []"] else [])

/-- Initial traversal state of `analyze_defs` (src/main.rs lines 321-326). -/
def init_state : DefsState := ⟨false, false, true, 1⟩

/-- `analyze_defs` (src/main.rs lines 318-356) for one file: walk the node
stream from the initial state, then flush trailing empty-list markers; on a
panic the flush never runs and the panic is reported. -/
def analyze_defs (ns : List DefsNode) : List String × Option String :=
  let r := analyze_nodes init_state ns
  match r.panic with
  | some m => (r.out, some m)
  | none => (r.out ++ end_flush r.state, none)

/-- Byte constant `CHAR_CR` (src/main.rs line 133). -/
def CHAR_CR : Nat := 0x0d

/-- Byte constant `CHAR_LF` (src/main.rs line 134). -/
def CHAR_LF : Nat := 0x0a

/-- A run of `n` copies of one character, for the `" ".repeat(..)` and
`"^".repeat(..)` calls of the error locator. -/
def charRun (c : Char) (n : Nat) : String := String.mk (List.replicate n c)

/-- Bytes rendered back as text (`String::from_utf8_lossy` on an ASCII slice). -/
def bytesToStr (l : List Nat) : String := String.mk (l.map Char.ofNat)

/-- The four diagnostic lines printed when `origin_pos == pos`
(src/main.rs lines 154-193). In the source, the variable named `column`
counts line feeds (the line indicator) and `row` is the within-line distance
(the column indicator); names are kept. -/
def ppe_emit (path : String) (s : List Nat) (origin_pos pos column : Nat)
    (last_lf : Option Nat) : List String :=
  let row := match last_lf with
    | some l => pos - l
    | none => pos + 1
  let next_crlf := pos + List.findIdx (fun b => b == CHAR_CR || b == CHAR_LF) (s.drop pos)
  let column_len := (toString column).length
  let beg := match last_lf with
    | some l => l + 1
    | none => 0
  [ " " ++ path ++ ":" ++ toString column ++ ":" ++ toString row,
    charRun ' ' (column_len + 1) ++ "|",
    toString column ++ " |" ++ " " ++ bytesToStr ((s.drop beg).take (next_crlf - beg)),
    charRun ' ' (column_len + 1) ++ "|" ++ " " ++ charRun ' ' (pos - beg) ++
      charRun '^' (min (origin_pos + 1) next_crlf - origin_pos) ]

/-- The scanning loop of `print_parse_error` (src/main.rs lines 147-194):
walks the bytes with their index `pos`, counting line feeds and remembering
the last one; after each increment of `pos`, emits the diagnostic if the
target offset equals `pos`. -/
def ppe_go (path : String) (s : List Nat) (origin_pos : Nat) :
    List Nat → Nat → Nat → Option Nat → List String
  | [], _, _, _ => []
  | b :: rest, pos, column, last_lf =>
    let column1 := if b = CHAR_LF then column + 1 else column
    let last_lf1 := if b = CHAR_LF then some pos else last_lf
    (if origin_pos = pos + 1 then ppe_emit path s origin_pos (pos + 1) column1 last_lf1 else [])
      ++ ppe_go path s origin_pos rest (pos + 1) column1 last_lf1

/-- `print_parse_error` (src/main.rs lines 136-195) as a pure function from
the origin path, the file's bytes and the target byte offset to the emitted
diagnostic lines (initial position 0, line counter 1, no line feed seen). -/
def print_parse_error (path : String) (s : List Nat) (origin_pos : Nat) :
    List String :=
  ppe_go path s origin_pos s 0 1 none

/-- State of the full-tree dumper loop (`skip` flag and `depth` counter,
src/main.rs lines 363-364). -/
structure FTState where
  skip : Bool
  depth : Nat
deriving DecidableEq, Repr

/-- A node event of the syntax-tree iterator as matched by `print_full_tree`
(src/main.rs lines 366-397): entering a terminal token (`Locate`), entering or
leaving a whitespace node, entering any other node, or leaving any other
node (the `Leave(_)` arm). -/
inductive TreeEvent where
  | enterLocate (text : String) (line : Nat)
  | enterWhiteSpace
  | leaveWhiteSpace
  | enterOther (name : String)
  | leaveNode
deriving DecidableEq, Repr

/-- One iteration of the `print_full_tree` match (src/main.rs lines 366-397):
note that the whitespace arms touch only `skip` — they neither print nor
change `depth`. -/
def ft_step (include_whitespace : Bool) (st : FTState) : TreeEvent → FTState × List String
  | .enterLocate text line =>
    (⟨st.skip, st.depth + 1⟩,
     if st.skip then []
     else [charRun ' ' (2 * st.depth) ++ "- Token: " ++ escapeS text,
           charRun ' ' (2 * st.depth) ++ "  Line: " ++ toString line])
  | .enterWhiteSpace =>
    (if include_whitespace then st else ⟨true, st.depth⟩, [])
  | .leaveWhiteSpace => (⟨false, st.depth⟩, [])
  | .enterOther name =>
    (⟨st.skip, st.depth + 1⟩,
     if st.skip then [] else [charRun ' ' (2 * st.depth) ++ "- " ++ name ++ ":"])
  | .leaveNode => (⟨st.skip, st.depth - 1⟩, [])

/-- The event loop of `print_full_tree` folded over the event stream. -/
def ft_run (include_whitespace : Bool) (st : FTState) : List TreeEvent → FTState × List String
  | [] => (st, [])
  | e :: rest =>
    let r1 := ft_step include_whitespace st e
    let r2 := ft_run include_whitespace r1.1 rest
    (r2.1, r1.2 ++ r2.2)

/-- `print_full_tree` (src/main.rs lines 359-399): runs the event loop from
`skip = false`, `depth = 3` and returns the printed lines. -/
def print_full_tree (include_whitespace : Bool) (events : List TreeEvent) : List String :=
  (ft_run include_whitespace ⟨false, 3⟩ events).2

/-- Outcome of the external parser for one input file, as dispatched by the
match in `run_opt` (src/main.rs lines 88-126): a successful parse carries the
extraction-relevant nodes of its tree; a localized parse failure carries the
origin file's path, bytes and byte offset; any other failure carries its
display text and cause chain. -/
inductive FileResult where
  | parsed (nodes : List DefsNode)
  | parseErrLocated (originPath : String) (src : List Nat) (pos : Nat)
  | parseErrOther (msg : String) (causes : List String)
deriving DecidableEq, Repr

/-- Result of a run: report-stream lines, error-channel lines, and the exit
status — `some code` when `run_opt` returns normally, `none` when a handler
panic aborted the process before `run_opt` could return. -/
structure RunResult where
  out : List String
  err : List String
  status : Option Int
deriving DecidableEq, Repr

/-- The per-file loop of `run_opt` (src/main.rs lines 81-127) in extraction
mode (`--full-tree` and `--show-macro-defs` off), threading the exit-code
accumulator. The `{:?}` debug rendering of a path is modelled with the same
quoting escaper the report uses. -/
def run_files : List (String × FileResult) → Int → RunResult
  | [], code => ⟨[], [], some code⟩
  | (path, .parsed nodes) :: rest, code =>
    let r := analyze_defs nodes
    let head := ("  - file_name: " ++ escapeS path) :: "    defs:" :: r.1
    match r.2 with
    | some _ => ⟨head, [], none⟩
    | none =>
      let rr := run_files rest code
      ⟨head ++ rr.out, rr.err, rr.status⟩
  | (path, .parseErrLocated op src pos) :: rest, _ =>
    let rr := run_files rest 1
    ⟨rr.out, (("parse failed: " ++ escapeS path) :: print_parse_error op src pos) ++ rr.err,
     rr.status⟩
  | (path, .parseErrOther msg causes) :: rest, _ =>
    let rr := run_files rest 1
    ⟨rr.out,
     (("parse failed: " ++ escapeS path ++ " (" ++ msg ++ ")") ::
       causes.map (fun c => "  Caused by " ++ c)) ++ rr.err,
     rr.status⟩

/-- `run_opt` (src/main.rs lines 57-131) in extraction mode: prints the
`files:` header, processes every file in order, and returns the accumulated
exit code. -/
def run_opt (files : List (String × FileResult)) : RunResult :=
  let r := run_files files 0
  ⟨"files:" :: r.out, r.err, r.status⟩

/-- Concatenation of the images of a list's elements, used to state what a
sequence of emissions produces. -/
def joinMap (f : α → List β) : List α → List β
  | [] => []
  | a :: l => f a ++ joinMap f l

/-- Whether a node makes the extraction panic: only a port declaration whose
constant-range bound resolved to text that does not parse as an i32. -/
def DefsNode.panics : DefsNode → Bool
  | .portDecl d =>
    match d.rangeText with
    | some t => (parseI32 t).isNone
    | none => false
  | _ => false

/-- Number of occurrences of one exact line in an emitted line list. -/
def countLine (t : String) : List String → Nat
  | [] => 0
  | l :: rest => (if l = t then 1 else 0) + countLine t rest

/-- A node whose processing can neither print a port-list header or marker
nor change the first-port flag: an unresolved module declaration, any
module instantiation, a port declaration that resolves no port identifier
and does not panic, or an ignored node. -/
def DefsNode.portsQuiet : DefsNode → Bool
  | .moduleDef id => id.isNone
  | .moduleInst _ _ => true
  | .portDecl d =>
    (match d.rangeText with
     | none => true
     | some t => (parseI32 t).isSome) && d.portIds.all Option.isNone
  | .other => true

/-- A node whose processing can neither print an instance-list header or
marker nor change the first-instance flag: an unresolved module declaration,
a module instantiation whose module identifier is unresolved, a
port declaration that does not panic, or an ignored node. -/
def DefsNode.instsQuiet : DefsNode → Bool
  | .moduleDef id => id.isNone
  | .moduleInst m _ => m.isNone
  | .portDecl d =>
    (match d.rangeText with
     | none => true
     | some t => (parseI32 t).isSome)
  | .other => true

/-- Whether a file's parse succeeded. -/
def fileOk : String × FileResult → Bool
  | (_, .parsed _) => true
  | _ => false

/-- Whether a file's processing runs to completion without the numeric
unwrap panic (vacuously true for files whose parse failed). -/
def fileNoPanic : String × FileResult → Bool
  | (_, .parsed ns) => (analyze_defs ns).2.isNone
  | _ => true

/-- The report-stream record of one file: present only for a successful
parse. -/
def fileRecord : String × FileResult → List String
  | (path, .parsed nodes) =>
    ("  - file_name: " ++ escapeS path) :: "    defs:" :: (analyze_defs nodes).1
  | _ => []

/-- The error-channel diagnostic of one file: present only for a failed
parse. -/
def fileDiag : String × FileResult → List String
  | (_, .parsed _) => []
  | (path, .parseErrLocated op src pos) =>
    ("parse failed: " ++ escapeS path) :: print_parse_error op src pos
  | (path, .parseErrOther msg causes) =>
    ("parse failed: " ++ escapeS path ++ " (" ++ msg ++ ")") ::
      causes.map (fun c => "  Caused by " ++ c)

/-- The `joinMap` of an appended list splits into two `joinMap`s. -/
theorem joinMap_append (f : α → List β) (l1 l2 : List α) :
    joinMap f (l1 ++ l2) = joinMap f l1 ++ joinMap f l2 := by
  induction l1 with
  | nil => rfl
  | cons a l ih => simp [joinMap, ih]

/-- Characterization of the file loop when no file panics: output is the
concatenation of the successful records in order, the error channel the
concatenation of the diagnostics in order, and the status is the accumulator
unless some file failed. -/
theorem run_files_eq (files : List (String × FileResult)) (code : Int)
    (h : ∀ f ∈ files, fileNoPanic f = true) :
    run_files files code
      = ⟨joinMap fileRecord files, joinMap fileDiag files,
         some (if files.all fileOk then code else 1)⟩ := by
  induction files generalizing code with
  | nil => simp [run_files, joinMap]
  | cons f rest ih =>
    obtain ⟨path, fr⟩ := f
    have hrest : ∀ g ∈ rest, fileNoPanic g = true := by
      intro g hg; exact h g (List.mem_cons_of_mem _ hg)
    cases fr with
    | parsed nodes =>
      have hp : (analyze_defs nodes).2 = none := by
        have := h (path, .parsed nodes) (List.mem_cons_self _ _)
        simpa [fileNoPanic, Option.isNone_iff_eq_none] using this
      simp only [run_files, hp, ih code hrest, joinMap, fileRecord, fileDiag,
                 fileOk, List.all_cons, Bool.true_and]
      cases hall : rest.all fileOk <;> simp [hall]
    | parseErrLocated op src pos =>
      simp [run_files, ih 1 hrest, joinMap, fileRecord, fileDiag, fileOk,
            List.all_cons]
    | parseErrOther msg causes =>
      simp [run_files, ih 1 hrest, joinMap, fileRecord, fileDiag, fileOk,
            List.all_cons]

/-- C6. Exit-status accumulation: when no file's extraction panics, `run_opt`
attempts every file regardless of earlier per-file parse failures; the report
stream is exactly the successful files' records in list order, every failed
file contributes its diagnostic (and nothing else) to the error channel, and
the returned status is 1 if any file failed and 0 otherwise. -/
theorem c6_exit_status_accumulation (files : List (String × FileResult))
    (h : ∀ f ∈ files, fileNoPanic f = true) :
    run_opt files
      = ⟨"files:" :: joinMap fileRecord files, joinMap fileDiag files,
         some (if files.all fileOk then 0 else 1)⟩ := by
  simp [run_opt, run_files_eq files 0 h]

/-- C6 witness: a run over a successful file, a localized parse failure, an
unlocalized failure, and a final successful file. -/
theorem c6_exit_status_accumulation_witness :
    (∀ f ∈ [("a", FileResult.parsed [DefsNode.moduleDef (some "m")]),
            ("b", FileResult.parseErrLocated "b" [97] 1),
            ("c", FileResult.parseErrOther "io" ["cause"]),
            ("d", FileResult.parsed [])], fileNoPanic f = true) ∧
    run_opt [("a", FileResult.parsed [DefsNode.moduleDef (some "m")]),
             ("b", FileResult.parseErrLocated "b" [97] 1),
             ("c", FileResult.parseErrOther "io" ["cause"]),
             ("d", FileResult.parsed [])]
      = ⟨"files:" :: joinMap fileRecord
           [("a", FileResult.parsed [DefsNode.moduleDef (some "m")]),
            ("b", FileResult.parseErrLocated "b" [97] 1),
            ("c", FileResult.parseErrOther "io" ["cause"]),
            ("d", FileResult.parsed [])],
         joinMap fileDiag
           [("a", FileResult.parsed [DefsNode.moduleDef (some "m")]),
            ("b", FileResult.parseErrLocated "b" [97] 1),
            ("c", FileResult.parseErrOther "io" ["cause"]),
            ("d", FileResult.parsed [])],
         some (if List.all [("a", FileResult.parsed [DefsNode.moduleDef (some "m")]),
            ("b", FileResult.parseErrLocated "b" [97] 1),
            ("c", FileResult.parseErrOther "io" ["cause"]),
            ("d", FileResult.parsed [])] fileOk then 0 else 1)⟩ :=
  ⟨by decide,
   c6_exit_status_accumulation
     [("a", FileResult.parsed [DefsNode.moduleDef (some "m")]),
      ("b", FileResult.parseErrLocated "b" [97] 1),
      ("c", FileResult.parseErrOther "io" ["cause"]),
      ("d", FileResult.parsed [])] (by decide)⟩

/-- Once a file's extraction panics, the run is cut short: everything after
that file is as if it were not on the command line at all. -/
theorem run_files_stops_at_panic (p : String) (bad : List DefsNode)
    (hbad : (analyze_defs bad).2.isSome = true) :
    ∀ (pre post : List (String × FileResult)) (code : Int),
      run_files (pre ++ (p, FileResult.parsed bad) :: post) code
        = run_files (pre ++ [(p, FileResult.parsed bad)]) code := by
  obtain ⟨m, hm⟩ := Option.isSome_iff_exists.mp hbad
  intro pre
  induction pre with
  | nil =>
    intro post code
    simp [run_files, hm]
  | cons f rest ih =>
    intro post code
    obtain ⟨q, fr⟩ := f
    cases fr with
    | parsed ns =>
      cases hns : (analyze_defs ns).2 with
      | none => simp [run_files, hns, ih post]
      | some msg => simp [run_files, hns]
    | parseErrLocated op src pos => simp [run_files, ih post]
    | parseErrOther msg causes => simp [run_files, ih post]

/-- C9 counterexample: a file whose port declaration carries the unparseable
range bound `x` aborts the whole run — the status is the panic marker, and
the following file `f2` contributes no record, so the failure is not confined
to the current file. -/
theorem c9_numeric_failure_cex :
    run_opt [("f1", FileResult.parsed [DefsNode.portDecl ⟨none, false, false, some "x", []⟩]),
             ("f2", FileResult.parsed [])]
      = ⟨["files:", "  - file_name: \"f1\"", "    defs:"], [], none⟩ ∧
    "  - file_name: \"f2\""
      ∉ (run_opt [("f1", FileResult.parsed
            [DefsNode.portDecl ⟨none, false, false, some "x", []⟩]),
          ("f2", FileResult.parsed [])]).out := by decide

/-- C9 amended: an unparseable constant-range bound is fatal for the entire
run, not just the current file: the handler propagates it as a panic with no
emission, and the run stops at the panicking file, leaving later files
unattempted; every other lookup miss merely skips its emission and never
panics. -/
theorem c9_numeric_failure_amended :
    (∀ (s : DefsState) (d : PortDeclData) (t : String), d.rangeText = some t →
       parseI32 t = none →
       (process_port_def s d).panic.isSome = true ∧ (process_port_def s d).out = []) ∧
    (∀ (s : DefsState) (n : DefsNode), n.panics = false →
       (analyze_step s n).panic = none) ∧
    (∀ (pre : List (String × FileResult)) (p : String) (bad : List DefsNode)
       (post : List (String × FileResult)), (analyze_defs bad).2.isSome = true →
       run_opt (pre ++ (p, FileResult.parsed bad) :: post)
         = run_opt (pre ++ [(p, FileResult.parsed bad)])) := by
  refine ⟨?_, ?_, ?_⟩
  · intro s d t hrt hpt
    obtain ⟨dk, hi, ho, rt, ids⟩ := d
    cases hrt
    simp [process_port_def, hpt]
  · intro s n hn
    cases n with
    | moduleDef id => rfl
    | moduleInst m i => rfl
    | other => rfl
    | portDecl d =>
      obtain ⟨dk, hi, ho, rt, ids⟩ := d
      cases rt with
      | none => simp [analyze_step, process_port_def]
      | some t =>
        cases hv : parseI32 t with
        | none => simp [DefsNode.panics, hv] at hn
        | some v => simp [analyze_step, process_port_def, hv]
  · intro pre p bad post hbad
    simp [run_opt, run_files_stops_at_panic p bad hbad pre post 0]

/-- C9 amended, witness: the three parts applied at concrete inputs — a bad
range bound `x` panics with no emission, an ignored node never panics, and a
run with a panicking first file equals the run without the second file. -/
theorem c9_numeric_failure_amended_witness :
    ((process_port_def init_state ⟨none, false, false, some "x", []⟩).panic.isSome = true ∧
     (process_port_def init_state ⟨none, false, false, some "x", []⟩).out = []) ∧
    (analyze_step init_state DefsNode.other).panic = none ∧
    run_opt ([] ++ ("f1", FileResult.parsed
        [DefsNode.portDecl ⟨none, false, false, some "x", []⟩]) ::
        [("f2", FileResult.parsed [])])
      = run_opt ([] ++ [("f1", FileResult.parsed
          [DefsNode.portDecl ⟨none, false, false, some "x", []⟩])]) :=
  ⟨c9_numeric_failure_amended.1 init_state ⟨none, false, false, some "x", []⟩ "x"
     rfl (by decide),
   c9_numeric_failure_amended.2.1 init_state DefsNode.other (by decide),
   c9_numeric_failure_amended.2.2 [] "f1"
     [DefsNode.portDecl ⟨none, false, false, some "x", []⟩]
     [("f2", FileResult.parsed [])] (by decide)⟩

/-- Once the scanning position has reached or passed the target offset without
emitting, the locator loop emits nothing further. -/
theorem ppe_go_eq_nil_of_le (path : String) (s : List Nat) (op : Nat) :
    ∀ (l : List Nat) (pos column : Nat) (lf : Option Nat), op ≤ pos →
      ppe_go path s op l pos column lf = [] := by
  intro l
  induction l with
  | nil => intro pos c lf h; rfl
  | cons b rest ih =>
    intro pos c lf h
    simp only [ppe_go]
    rw [if_neg (by omega)]
    simp [ih (pos + 1) _ _ (by omega)]

/-- When the target offset lies in the remaining scan range, the locator loop
emits exactly the four diagnostic lines. -/
theorem ppe_go_length (path : String) (s : List Nat) (op : Nat) :
    ∀ (l : List Nat) (pos column : Nat) (lf : Option Nat),
      pos < op → op ≤ pos + l.length →
      (ppe_go path s op l pos column lf).length = 4 := by
  intro l
  induction l with
  | nil => intro pos c lf h1 h2; simp at h2; omega
  | cons b rest ih =>
    intro pos c lf h1 h2
    by_cases h : op = pos + 1
    · simp only [ppe_go]
      rw [if_pos h]
      rw [ppe_go_eq_nil_of_le path s op rest (pos + 1) _ _ (by omega)]
      simp [ppe_emit]
    · simp only [ppe_go]
      rw [if_neg h]
      simp only [List.nil_append]
      exact ih (pos + 1) _ _ (by omega) (by simp at h2; omega)

/-- C4. Error-locator example: on source bytes `"a\nb\ncd"` with target
offset 5 (the byte of `d`), `print_parse_error` reports `3:2` (third line,
second column), renders the source line `cd`, and places a one-caret
underline under `d`. -/
theorem c4_error_locator_example :
    print_parse_error "f" [97, 10, 98, 10, 99, 100] 5
      = [" f:3:2", "  |", "3 | cd", "  |  ^"] := by decide

/-- C8 counterexample: at target offset 0 (the very start of the file, no
preceding line break) `print_parse_error` renders nothing at all — the claimed
four-line diagnostic is not produced. -/
theorem c8_error_locator_boundaries_cex :
    print_parse_error "f" [97] 0 = [] ∧
    (print_parse_error "f" [97] 0).length ≠ 4 := by decide

/-- C8 amended: the locator emits nothing for offset 0 (emission is checked
only after the position increments, so only offsets 1..len can fire); for any
offset in that range it renders exactly the four-line diagnostic, including an
offset at the very end of the file with no following line break (concretely,
offset 6 in `"a\nb\ncd"`). -/
theorem c8_error_locator_boundaries_amended :
    (∀ (path : String) (s : List Nat), print_parse_error path s 0 = []) ∧
    (∀ (path : String) (s : List Nat) (off : Nat), 1 ≤ off → off ≤ s.length →
       (print_parse_error path s off).length = 4) ∧
    print_parse_error "f" [97, 10, 98, 10, 99, 100] 6
      = [" f:3:3", "  |", "3 | cd", "  |   "] := by
  refine ⟨?_, ?_, by decide⟩
  · intro path s
    exact ppe_go_eq_nil_of_le path s 0 s 0 1 none (by omega)
  · intro path s off h1 h2
    exact ppe_go_length path s off s 0 1 none (by omega) (by omega)

/-- C8 amended, witness: the four-line case applied at offset 6 of
`"a\nb\ncd"`. -/
theorem c8_error_locator_boundaries_amended_witness :
    1 ≤ 6 ∧ 6 ≤ [97, 10, 98, 10, 99, 100].length ∧
    (print_parse_error "f" [97, 10, 98, 10, 99, 100] 6).length = 4 :=
  ⟨by decide, by decide,
   c8_error_locator_boundaries_amended.2.1 "f" [97, 10, 98, 10, 99, 100] 6
     (by decide) (by decide)⟩

/-- C7 counterexample: entering a whitespace-kind node leaves the depth
counter unchanged (3, not 4) — depth does not increment on every node entry
event. -/
theorem c7_full_tree_depth_cex :
    (ft_step false ⟨false, 3⟩ TreeEvent.enterWhiteSpace).1.depth = 3 ∧
    (ft_step false ⟨false, 3⟩ TreeEvent.enterWhiteSpace).1.depth ≠ 3 + 1 := by decide

/-- C7 amended: depth increments on every terminal-token and grammar-node
entry event regardless of emission (in particular while suppression is
active), and decrements on the generic leave arm; the whitespace-kind enter
and leave arms touch only the skip flag and leave depth unchanged, so a
sibling after a suppressed whitespace subtree is still indented at its
correct depth (concrete demonstration in the last conjunct). -/
theorem c7_full_tree_depth_amended :
    (∀ (inc : Bool) (st : FTState) (t : String) (ln : Nat),
       (ft_step inc st (TreeEvent.enterLocate t ln)).1.depth = st.depth + 1) ∧
    (∀ (inc : Bool) (st : FTState) (nm : String),
       (ft_step inc st (TreeEvent.enterOther nm)).1.depth = st.depth + 1) ∧
    (∀ (inc : Bool) (st : FTState),
       (ft_step inc st TreeEvent.leaveNode).1.depth = st.depth - 1) ∧
    (∀ (inc : Bool) (st : FTState),
       (ft_step inc st TreeEvent.enterWhiteSpace).1.depth = st.depth) ∧
    (∀ (inc : Bool) (st : FTState),
       (ft_step inc st TreeEvent.leaveWhiteSpace).1.depth = st.depth) ∧
    print_full_tree false [TreeEvent.enterOther "A", TreeEvent.enterWhiteSpace,
      TreeEvent.enterLocate " " 1, TreeEvent.leaveNode, TreeEvent.leaveWhiteSpace,
      TreeEvent.enterOther "B", TreeEvent.leaveNode, TreeEvent.leaveNode]
      = ["      - A:", "        - B:"] := by
  refine ⟨?_, ?_, ?_, ?_, ?_, by decide⟩ <;> intro inc st
  · intro t ln; rfl
  · intro nm; rfl
  · rfl
  · cases inc <;> rfl
  · rfl

/-- C5 counterexample: a module-instantiation node whose module identifier
resolves to `m` but whose instance identifier is missing is not skipped —
the handler emits the instance-list header and a dangling `mod_name` line. -/
theorem c5_instance_entry_cex :
    (process_module_inst ⟨true, true, true, 1⟩ (some "m") none).2
      = ["        insts:", "          - mod_name: \"m\""] ∧
    (process_module_inst ⟨true, true, true, 1⟩ (some "m") none).2 ≠ [] := by decide

/-- C5 amended: if the instantiated module's identifier cannot be resolved
the entry is skipped entirely and silently; if it resolves but the instance
identifier does not, the insts header (when not yet printed) and the
`mod_name` line are still emitted and the first-instance flag is cleared,
leaving a partial entry with no `inst_name` line; when both resolve, exactly
one complete entry is emitted. -/
theorem c5_instance_entry_amended (s : DefsState) (m i : String) :
    process_module_inst s none (some i) = (s, []) ∧
    process_module_inst s none none = (s, []) ∧
    process_module_inst s (some m) none
      = ({ s with first_inst := false },
         (if s.first_inst then ["        insts:"] else []) ++
           ["          - mod_name: " ++ escapeS m]) ∧
    process_module_inst s (some m) (some i)
      = ({ s with first_inst := false },
         (if s.first_inst then ["        insts:"] else []) ++
           ["          - mod_name: " ++ escapeS m,
            "            inst_name: " ++ escapeS i]) := by
  obtain ⟨fp, fi, ii, pw⟩ := s
  cases fi <;> simp [process_module_inst]

/-- C1. Direction carry-over: after a port declared with the explicit
`input` keyword, a following port-declaration node with no direction keyword
and no input/output declaration form emits its port with `port_dir "input"`,
inheriting the resolved state; neither the current direction nor the current
width is reset between ports (the port-identifier handler never writes
them). -/
theorem c1_direction_carry_over (s : DefsState) (a b : String) :
    (let r1 := process_port_def s ⟨some "input", false, false, none, [some a]⟩
     let r2 := process_port_def r1.state ⟨none, false, false, none, [some b]⟩
     r1.state.is_input = true ∧ r1.state.port_width = 1 ∧
     r2.out = ["          - port_name: " ++ escapeS b,
               "            port_dir: \"input\"",
               "            port_width: 1"] ∧
     r2.state.is_input = r1.state.is_input ∧
     r2.state.port_width = r1.state.port_width) ∧
    (∀ (s2 : DefsState) (id : Option String),
       (process_port_ident s2 id).1.is_input = s2.is_input ∧
       (process_port_ident s2 id).1.port_width = s2.port_width) := by
  constructor
  · obtain ⟨fp, fi, ii, pw⟩ := s
    cases fp <;>
      simp [process_port_def, port_dir_checks, process_port_idents,
            process_port_ident] <;> rfl
  · intro s2 id
    obtain ⟨fp, fi, ii, pw⟩ := s2
    cases id with
    | none => exact ⟨rfl, rfl⟩
    | some v => cases fp <;> simp [process_port_ident]

/-- C10. The traversal state is created once per file with direction Input
and width 1 (`init_state`); the module-definition handler never writes the
direction or width, so they survive module boundaries: in the concrete file
below, the first port `q` of the second module, which carries no specifiers,
is reported as `output` with width 4 — the values left by the last port of
the previous module, not the Input/1 defaults. -/
theorem c10_state_crosses_modules :
    init_state.is_input = true ∧ init_state.port_width = 1 ∧
    (∀ (s : DefsState) (id : Option String),
       (process_module_def s id).1.is_input = s.is_input ∧
       (process_module_def s id).1.port_width = s.port_width) ∧
    analyze_defs [DefsNode.moduleDef (some "M1"),
      DefsNode.portDecl ⟨some "output", false, false, some "3", [some "p"]⟩,
      DefsNode.moduleDef (some "M2"),
      DefsNode.portDecl ⟨none, false, false, none, [some "q"]⟩]
      = (["      - mod_name: \"M1\"", "        ports:",
          "          - port_name: \"p\"", "            port_dir: \"output\"",
          "            port_width: 4", "        insts: []",
          "      - mod_name: \"M2\"", "        ports:",
          "          - port_name: \"q\"", "            port_dir: \"output\"",
          "            port_width: 4", "        insts: []"], none) := by
  refine ⟨rfl, rfl, ?_, by decide⟩
  intro s id
  cases id <;> simp [process_module_def]

/-- A string with a prefix longer than the target differs from the target. -/
theorem ne_of_long_prefix (p e t : String) (h : t.length < p.length) :
    p ++ e ≠ t := by
  intro he
  have hl : (p ++ e).length = t.length := congrArg String.length he
  rw [String.length_append] at hl
  omega

/-- `countLine` distributes over appended line lists. -/
theorem countLine_append (t : String) (l1 l2 : List String) :
    countLine t (l1 ++ l2) = countLine t l1 + countLine t l2 := by
  induction l1 with
  | nil => simp [countLine]
  | cons a l ih => simp [countLine, ih]; omega

/-- The direction-check cascade writes only the direction and the width. -/
theorem port_dir_checks_flags (s : DefsState) (d : PortDeclData) :
    (port_dir_checks s d).first_port = s.first_port ∧
    (port_dir_checks s d).first_inst = s.first_inst := by
  obtain ⟨dk, hi, ho, rt, ids⟩ := d
  cases dk <;> cases hi <;> cases ho <;> simp [port_dir_checks]

/-- The port-identifier loop over identifiers that all failed to resolve is
a no-op. -/
theorem process_port_idents_all_none (ids : List (Option String)) :
    ∀ s : DefsState, ids.all Option.isNone = true →
      process_port_idents s ids = (s, []) := by
  induction ids with
  | nil => intro s _; rfl
  | cons id rest ih =>
    intro s h
    simp only [List.all_cons, Bool.and_eq_true] at h
    cases id with
    | none => simp [process_port_idents, process_port_ident, ih s h.2]
    | some v => simp [Option.isNone] at h

/-- The port-identifier loop never writes the first-instance flag and never
prints an instance-list empty marker. -/
theorem process_port_idents_inst_side (ids : List (Option String)) :
    ∀ s : DefsState,
      (process_port_idents s ids).1.first_inst = s.first_inst ∧
      countLine "        insts: []" (process_port_idents s ids).2 = 0 := by
  induction ids with
  | nil => intro s; exact ⟨rfl, rfl⟩
  | cons id rest ih =>
    intro s
    cases id with
    | none => simpa [process_port_idents, process_port_ident] using ih s
    | some v =>
      have hpn : "          - port_name: " ++ escapeS v ≠ "        insts: []" :=
        ne_of_long_prefix _ _ _ (by decide)
      have hpw : "            port_width: " ++ toString s.port_width
          ≠ "        insts: []" := ne_of_long_prefix _ _ _ (by decide)
      have hpd : (if s.is_input then "            port_dir: \"input\""
            else "            port_dir: \"output\"") ≠ "        insts: []" := by
        by_cases hb : s.is_input <;> simp [hb]
      by_cases hfp : s.first_port <;>
        simpa [process_port_idents, process_port_ident, hfp, countLine,
               countLine_append, hpn, hpw, hpd] using
          ih (if s.first_port then { s with first_port := false } else s)

/-- A ports-quiet node preserves the first-port flag, cannot panic, and
prints no `ports: []` marker. -/
theorem analyze_step_portsQuiet (s : DefsState) (n : DefsNode)
    (h : n.portsQuiet = true) :
    (analyze_step s n).state.first_port = s.first_port ∧
    (analyze_step s n).panic = none ∧
    countLine "        ports: []" (analyze_step s n).out = 0 := by
  cases n with
  | other => exact ⟨rfl, rfl, rfl⟩
  | moduleDef id =>
    cases id with
    | none => exact ⟨rfl, rfl, rfl⟩
    | some v => simp [DefsNode.portsQuiet] at h
  | moduleInst m i =>
    cases m with
    | none => exact ⟨rfl, rfl, rfl⟩
    | some mv =>
      have hml : "          - mod_name: " ++ escapeS mv ≠ "        ports: []" :=
        ne_of_long_prefix _ _ _ (by decide)
      have hh : ¬ ("        insts:" = "        ports: []") := by decide
      cases i with
      | none =>
        by_cases hfi : s.first_inst <;>
          refine ⟨by simp [analyze_step, process_module_inst, hfi], rfl, ?_⟩ <;>
          simp [analyze_step, process_module_inst, hfi, countLine, hml, hh]
      | some iv =>
        have hin : "            inst_name: " ++ escapeS iv ≠ "        ports: []" :=
          ne_of_long_prefix _ _ _ (by decide)
        by_cases hfi : s.first_inst <;>
          refine ⟨by simp [analyze_step, process_module_inst, hfi], rfl, ?_⟩ <;>
          simp [analyze_step, process_module_inst, hfi, countLine, hml, hh, hin]
  | portDecl d =>
    obtain ⟨dk, hi, ho, rt, ids⟩ := d
    simp only [DefsNode.portsQuiet, Bool.and_eq_true] at h
    cases rt with
    | none =>
      refine ⟨?_, rfl, ?_⟩
      · show (process_port_idents (port_dir_checks s ⟨dk, hi, ho, none, ids⟩)
            ids).1.first_port = s.first_port
        rw [process_port_idents_all_none ids _ h.2]
        exact (port_dir_checks_flags s ⟨dk, hi, ho, none, ids⟩).1
      · show countLine "        ports: []"
          (process_port_idents (port_dir_checks s ⟨dk, hi, ho, none, ids⟩) ids).2 = 0
        rw [process_port_idents_all_none ids _ h.2]
        rfl
    | some t =>
      obtain ⟨v, hv⟩ := Option.isSome_iff_exists.mp h.1
      refine ⟨?_, ?_, ?_⟩ <;> simp only [analyze_step, process_port_def, hv]
      · rw [process_port_idents_all_none ids _ h.2]
        exact (port_dir_checks_flags s ⟨dk, hi, ho, some t, ids⟩).1
      · rw [process_port_idents_all_none ids _ h.2]
        rfl

/-- An insts-quiet node preserves the first-instance flag, cannot panic, and
prints no `insts: []` marker. -/
theorem analyze_step_instsQuiet (s : DefsState) (n : DefsNode)
    (h : n.instsQuiet = true) :
    (analyze_step s n).state.first_inst = s.first_inst ∧
    (analyze_step s n).panic = none ∧
    countLine "        insts: []" (analyze_step s n).out = 0 := by
  cases n with
  | other => exact ⟨rfl, rfl, rfl⟩
  | moduleDef id =>
    cases id with
    | none => exact ⟨rfl, rfl, rfl⟩
    | some v => simp [DefsNode.instsQuiet] at h
  | moduleInst m i =>
    cases m with
    | none => exact ⟨rfl, rfl, rfl⟩
    | some mv => simp [DefsNode.instsQuiet] at h
  | portDecl d =>
    obtain ⟨dk, hi, ho, rt, ids⟩ := d
    simp only [DefsNode.instsQuiet] at h
    cases rt with
    | none =>
      refine ⟨?_, rfl, ?_⟩
      · exact (process_port_idents_inst_side ids _).1.trans
          (port_dir_checks_flags s ⟨dk, hi, ho, none, ids⟩).2
      · exact (process_port_idents_inst_side ids _).2
    | some t =>
      obtain ⟨v, hv⟩ := Option.isSome_iff_exists.mp h
      refine ⟨?_, ?_, ?_⟩ <;> simp only [analyze_step, process_port_def, hv]
      · exact (process_port_idents_inst_side ids _).1.trans
          (port_dir_checks_flags s ⟨dk, hi, ho, some t, ids⟩).2
      · exact (process_port_idents_inst_side ids _).2

/-- A ports-quiet segment preserves the first-port flag, never panics, and
prints no `ports: []` marker. -/
theorem analyze_nodes_portsQuiet (mid : List DefsNode) :
    ∀ s : DefsState, (∀ n ∈ mid, n.portsQuiet = true) →
      (analyze_nodes s mid).state.first_port = s.first_port ∧
      (analyze_nodes s mid).panic = none ∧
      countLine "        ports: []" (analyze_nodes s mid).out = 0 := by
  induction mid with
  | nil => intro s _; exact ⟨rfl, rfl, rfl⟩
  | cons n rest ih =>
    intro s h
    have hstep := analyze_step_portsQuiet s n (h n (List.mem_cons_self n rest))
    have hrest := ih (analyze_step s n).state
      (fun x hx => h x (List.mem_cons_of_mem _ hx))
    refine ⟨?_, ?_, ?_⟩ <;>
      simp [analyze_nodes, hstep.2.1, hstep.1, hstep.2.2, countLine_append,
            hrest.1, hrest.2.1, hrest.2.2]

/-- An insts-quiet segment preserves the first-instance flag, never panics,
and prints no `insts: []` marker. -/
theorem analyze_nodes_instsQuiet (mid : List DefsNode) :
    ∀ s : DefsState, (∀ n ∈ mid, n.instsQuiet = true) →
      (analyze_nodes s mid).state.first_inst = s.first_inst ∧
      (analyze_nodes s mid).panic = none ∧
      countLine "        insts: []" (analyze_nodes s mid).out = 0 := by
  induction mid with
  | nil => intro s _; exact ⟨rfl, rfl, rfl⟩
  | cons n rest ih =>
    intro s h
    have hstep := analyze_step_instsQuiet s n (h n (List.mem_cons_self n rest))
    have hrest := ih (analyze_step s n).state
      (fun x hx => h x (List.mem_cons_of_mem _ hx))
    refine ⟨?_, ?_, ?_⟩ <;>
      simp [analyze_nodes, hstep.2.1, hstep.1, hstep.2.2, countLine_append,
            hrest.1, hrest.2.1, hrest.2.2]

/-- When the first segment does not panic, the traversal of an appended node
list emits the first segment's lines followed by the second segment's lines
continued from the reached state. -/
theorem analyze_nodes_append (l1 l2 : List DefsNode) :
    ∀ s : DefsState, (analyze_nodes s l1).panic = none →
      (analyze_nodes s (l1 ++ l2)).out
        = (analyze_nodes s l1).out
          ++ (analyze_nodes (analyze_nodes s l1).state l2).out := by
  induction l1 with
  | nil => intro s _; simp [analyze_nodes]
  | cons n rest ih =>
    intro s hp
    cases hstep : (analyze_step s n).panic with
    | some msg => simp [analyze_nodes, hstep] at hp
    | none =>
      have hp2 : (analyze_nodes (analyze_step s n).state rest).panic = none := by
        simpa [analyze_nodes, hstep] using hp
      simp [analyze_nodes, hstep, ih (analyze_step s n).state hp2]

/-- C2. Empty-list markers exactly once: open a module `m` from any state;
if the following segment resolves no port identifier (and stays quiet for
ports), then whether the module is closed by the next resolved module
declaration or by the end-of-traversal flush, exactly one `ports: []` line is
emitted; symmetrically, if the segment emits no instance entry, exactly one
`insts: []` line is emitted at close. -/
theorem c2_empty_list_markers (s : DefsState) (m m2 : String)
    (midP midI : List DefsNode)
    (hP : ∀ n ∈ midP, n.portsQuiet = true)
    (hI : ∀ n ∈ midI, n.instsQuiet = true) :
    (let s1 := (process_module_def s (some m)).1
     countLine "        ports: []"
         (analyze_nodes s1 (midP ++ [DefsNode.moduleDef (some m2)])).out = 1 ∧
     countLine "        ports: []"
         ((analyze_nodes s1 midP).out ++ end_flush (analyze_nodes s1 midP).state) = 1) ∧
    (let s1 := (process_module_def s (some m)).1
     countLine "        insts: []"
         (analyze_nodes s1 (midI ++ [DefsNode.moduleDef (some m2)])).out = 1 ∧
     countLine "        insts: []"
         ((analyze_nodes s1 midI).out ++ end_flush (analyze_nodes s1 midI).state) = 1) := by
  have hml2 : "      - mod_name: " ++ escapeS m2 ≠ "        ports: []" :=
    ne_of_long_prefix _ _ _ (by decide)
  have hml2i : "      - mod_name: " ++ escapeS m2 ≠ "        insts: []" :=
    ne_of_long_prefix _ _ _ (by decide)
  have hpi : ¬ ("        ports: []" = "        insts: []") := by decide
  have hip : ¬ ("        insts: []" = "        ports: []") := by decide
  have hs1 : (process_module_def s (some m)).1
      = ⟨true, true, s.is_input, s.port_width⟩ := rfl
  simp only [hs1]
  constructor
  · have hA := analyze_nodes_portsQuiet midP ⟨true, true, s.is_input, s.port_width⟩ hP
    have hfp : (analyze_nodes (⟨true, true, s.is_input, s.port_width⟩ : DefsState)
        midP).state.first_port = true := hA.1
    constructor
    · rw [analyze_nodes_append midP [DefsNode.moduleDef (some m2)] _ hA.2.1,
          countLine_append, hA.2.2]
      by_cases hfi : (analyze_nodes (⟨true, true, s.is_input, s.port_width⟩ : DefsState)
          midP).state.first_inst = true <;>
        simp [analyze_nodes, analyze_step, process_module_def, hfp, hfi,
              countLine, countLine_append, hml2, hip]
    · rw [countLine_append, hA.2.2]
      by_cases hfi : (analyze_nodes (⟨true, true, s.is_input, s.port_width⟩ : DefsState)
          midP).state.first_inst = true <;>
        simp [end_flush, hfp, hfi, countLine, countLine_append, hip]
  · have hB := analyze_nodes_instsQuiet midI ⟨true, true, s.is_input, s.port_width⟩ hI
    have hfi : (analyze_nodes (⟨true, true, s.is_input, s.port_width⟩ : DefsState)
        midI).state.first_inst = true := hB.1
    constructor
    · rw [analyze_nodes_append midI [DefsNode.moduleDef (some m2)] _ hB.2.1,
          countLine_append, hB.2.2]
      by_cases hfp2 : (analyze_nodes (⟨true, true, s.is_input, s.port_width⟩ : DefsState)
          midI).state.first_port = true <;>
        simp [analyze_nodes, analyze_step, process_module_def, hfi, hfp2,
              countLine, countLine_append, hml2i, hpi]
    · rw [countLine_append, hB.2.2]
      by_cases hfp2 : (analyze_nodes (⟨true, true, s.is_input, s.port_width⟩ : DefsState)
          midI).state.first_port = true <;>
        simp [end_flush, hfi, hfp2, countLine, countLine_append, hpi]

/-- C2 witness: the markers appear exactly once around a quiet segment
consisting of one ignored node. -/
theorem c2_empty_list_markers_witness :
    (∀ n ∈ [DefsNode.other], n.portsQuiet = true) ∧
    (∀ n ∈ [DefsNode.other], n.instsQuiet = true) ∧
    ((let s1 := (process_module_def init_state (some "a")).1
      countLine "        ports: []"
          (analyze_nodes s1 ([DefsNode.other] ++ [DefsNode.moduleDef (some "b")])).out = 1 ∧
      countLine "        ports: []"
          ((analyze_nodes s1 [DefsNode.other]).out
            ++ end_flush (analyze_nodes s1 [DefsNode.other]).state) = 1) ∧
     (let s1 := (process_module_def init_state (some "a")).1
      countLine "        insts: []"
          (analyze_nodes s1 ([DefsNode.other] ++ [DefsNode.moduleDef (some "b")])).out = 1 ∧
      countLine "        insts: []"
          ((analyze_nodes s1 [DefsNode.other]).out
            ++ end_flush (analyze_nodes s1 [DefsNode.other]).state) = 1)) :=
  ⟨by decide, by decide,
   c2_empty_list_markers init_state "a" "b" [DefsNode.other] [DefsNode.other]
     (by decide) (by decide)⟩

/-- Taking one element past a front segment yields the segment plus that
element. -/
theorem take_append_cons (l1 : List α) (a : α) (l2 : List α) :
    (l1 ++ a :: l2).take (l1.length + 1) = l1 ++ [a] := by
  induction l1 with
  | nil => simp
  | cons x xs ih => simp [ih]

/-- The slicing loop of `escape_str` produces the pending unescaped slice
followed by the per-byte escape expansion of the remaining input: at index
`i` with pending-slice start `start`, provided every byte of the pending
slice is unescaped, the final output is the accumulator, the pending slice,
then the expansion of the remaining bytes. -/
theorem escape_loop_eq (v : List Nat) :
    ∀ (tail : List Nat) (i start : Nat) (wr : List Nat),
      start ≤ i → i ≤ v.length → v.drop i = tail →
      (∀ x ∈ (v.drop start).take (i - start), escTable x = none) →
      escape_loop v tail i start wr
        = wr ++ (v.drop start).take (i - start) ++ joinMap escByte tail := by
  intro tail
  induction tail with
  | nil =>
    intro i start wr hsi hil hdrop hns
    have hieq : i = v.length := by
      have := List.drop_eq_nil_iff.mp hdrop
      omega
    subst hieq
    have htake : (v.drop start).take (v.length - start) = v.drop start :=
      List.take_of_length_le (by rw [List.length_drop])
    by_cases hs : start = v.length
    · subst hs
      simp [escape_loop, joinMap, List.drop_length]
    · simp [escape_loop, hs, htake, joinMap]
  | cons b rest ih =>
    intro i start wr hsi hil hdrop hns
    have hlt : i < v.length := by
      rcases Nat.lt_or_ge i v.length with h | h
      · exact h
      · rw [List.drop_eq_nil_iff.mpr h] at hdrop; cases hdrop
    have hrest : v.drop (i + 1) = rest := by
      have h1 := List.drop_drop 1 i v
      rw [hdrop] at h1
      simpa [Nat.add_comm] using h1.symm
    have hTlen : ((v.drop start).take (i - start)).length = i - start := by
      rw [List.length_take, List.length_drop]
      omega
    have hdecomp : v.drop start = (v.drop start).take (i - start) ++ b :: rest := by
      conv_lhs => rw [← List.take_append_drop (i - start) (v.drop start)]
      congr 1
      rw [List.drop_drop, show start + (i - start) = i by omega, hdrop]
    cases hesc : escTable b with
    | none =>
      have htake1 : (v.drop start).take (i + 1 - start)
          = (v.drop start).take (i - start) ++ [b] := by
        conv_lhs => rw [hdecomp,
          show i + 1 - start = ((v.drop start).take (i - start)).length + 1 by
            rw [hTlen]; omega]
        exact take_append_cons _ b rest
      have hmem : ∀ x ∈ (v.drop start).take (i + 1 - start), escTable x = none := by
        rw [htake1]
        intro x hx
        rcases List.mem_append.mp hx with h | h
        · exact hns x h
        · rw [List.mem_singleton.mp h]; exact hesc
      have hIH := ih (i + 1) start wr (by omega) (by omega) hrest hmem
      calc escape_loop v (b :: rest) i start wr
          = escape_loop v rest (i + 1) start wr := by
            simp only [escape_loop, hesc]
        _ = wr ++ (v.drop start).take (i + 1 - start) ++ joinMap escByte rest := hIH
        _ = wr ++ (v.drop start).take (i - start) ++ joinMap escByte (b :: rest) := by
            rw [htake1, joinMap, escByte, hesc]
            simp
    | some esc =>
      have hwr1 : (if start < i then wr ++ (v.drop start).take (i - start) else wr)
          = wr ++ (v.drop start).take (i - start) := by
        by_cases h : start < i
        · rw [if_pos h]
        · have hse : start = i := by omega
          subst hse
          simp
      have hIH := ih (i + 1) (i + 1) (wr ++ (v.drop start).take (i - start) ++ esc)
        (Nat.le_refl _) (by omega) hrest (by intro x hx; simp at hx)
      calc escape_loop v (b :: rest) i start wr
          = escape_loop v rest (i + 1) (i + 1)
              (wr ++ (v.drop start).take (i - start) ++ esc) := by
            simp only [escape_loop, hesc, hwr1]
        _ = wr ++ (v.drop start).take (i - start) ++ esc
              ++ (v.drop (i + 1)).take (i + 1 - (i + 1)) ++ joinMap escByte rest := by
            rw [hIH]
        _ = wr ++ (v.drop start).take (i - start) ++ joinMap escByte (b :: rest) := by
            rw [joinMap, escByte, hesc]
            simp

/-- `escape_str` is the quote-wrapped concatenation of the per-byte escape
expansions. -/
theorem escape_str_eq (v : List Nat) :
    escape_str v = 34 :: (joinMap escByte v ++ [34]) := by
  have h := escape_loop_eq v v 0 0 [34] (Nat.le_refl 0) (Nat.zero_le _)
    (List.drop_zero v) (by intro x hx; simp at hx)
  simp only [escape_str, h]
  simp

/-- Decoding an escaped byte from the front of the stream: the standard
unescaper consumes the expansion of any byte and prepends that byte to the
decoded remainder. -/
theorem unesc_escByte (b : Nat) (l : List Nat) :
    unescBody (escByte b ++ l) = (unescBody l).map (fun u => b :: u) := by
  rcases Nat.lt_or_ge b 32 with h32 | h32
  · interval_cases b <;>
      · simp only [escByte, escTable]
        norm_num
        rw [unescBody.eq_def]
        simp [unescHex]
  · by_cases h34 : b = 34
    · subst h34
      simp only [escByte, escTable]
      norm_num
      rw [unescBody.eq_def]
      simp
    · by_cases h92 : b = 92
      · subst h92
        simp only [escByte, escTable]
        norm_num
        rw [unescBody.eq_def]
        simp
      · by_cases h127 : b = 127
        · subst h127
          simp only [escByte, escTable]
          norm_num
          rw [unescBody.eq_def]
          simp [unescHex]
        · have ht : escTable b = none := by
            unfold escTable
            repeat rw [if_neg (by omega)]
          have hb : escByte b = [b] := by simp [escByte, ht]
          rw [hb]
          show unescBody (b :: l) = (unescBody l).map (fun u => b :: u)
          rw [unescBody.eq_def]
          simp [h34, h92]

/-- C3. Escaper round-trip: for every byte string — including embedded
quotes, backslashes and raw control bytes 0x00–0x1F and 0x7F — applying the
standard quoted-scalar unescape to the output of `escape_str` reproduces the
exact original bytes; the escaper is byte-exact and lossless. -/
theorem c3_escaper_round_trip : ∀ v : List Nat, unescape (escape_str v) = some v := by
  intro v
  rw [escape_str_eq]
  show unescBody (joinMap escByte v ++ [34]) = some v
  induction v with
  | nil => rfl
  | cons b rest ih =>
    calc unescBody (joinMap escByte (b :: rest) ++ [34])
        = unescBody (escByte b ++ (joinMap escByte rest ++ [34])) := by
          rw [joinMap, List.append_assoc]
      _ = (unescBody (joinMap escByte rest ++ [34])).map (fun u => b :: u) :=
          unesc_escByte b _
      _ = (some rest).map (fun u => b :: u) := by rw [ih]
      _ = some (b :: rest) := rfl

end SvinstPort
